import Mathlib

/-!
Shallow embedding of the markdown block/inline parser of
`docs-generator/skills/hackathon-debrief/scripts/generate_debrief_doc.py`.

Strings are modelled as `List Char`.  Python's `str.strip`, `str.split`,
`str.lower` and the concrete regular expressions of the source are embedded
as executable functions.  The block scanner's outer `while` loop does not
always make progress (the source never increments `i` when the paragraph
accumulator claims no line), so it is embedded with explicit fuel returning
`Option`; `none` means the loop was still running when the fuel ran out, and
a result of `none` for every fuel amount is a non-termination proof.
-/

namespace Debrief

/-- Characters treated as whitespace by Python's `str.strip` / `\s` (ASCII part). -/
def pyWs (c : Char) : Bool :=
  c = ' ' || c = '\t' || c = '\n' || c = '\r' || c = Char.ofNat 11 || c = Char.ofNat 12

/-- String literal helper: view a Lean string literal as a `List Char`. -/
def sl (s : String) : List Char := s.toList

/-- Python `str.lstrip()`. -/
def lstrip (s : List Char) : List Char := s.dropWhile pyWs

/-- Python `str.rstrip()`. -/
def rstrip (s : List Char) : List Char := (s.reverse.dropWhile pyWs).reverse

/-- Python `str.strip()`. -/
def pyStrip (s : List Char) : List Char := rstrip (lstrip s)

/-- Python `str.lower()` (ASCII part). -/
def pyLower (s : List Char) : List Char :=
  s.map fun c => if 'A' ≤ c && c ≤ 'Z' then Char.ofNat (c.toNat + 32) else c

/-- Python `str.split(sep)` for a single-character separator:
`splitOnChar c s` splits `s` at every occurrence of `c`, keeping empty pieces. -/
def splitOnChar (sep : Char) : List Char → List (List Char)
  | [] => [[]]
  | c :: cs =>
    if c = sep then [] :: splitOnChar sep cs
    else
      match splitOnChar sep cs with
      | [] => [[c]]
      | l :: ls => (c :: l) :: ls

/-- Python `sep.join(pieces)`. -/
def joinWith (sep : List Char) : List (List Char) → List Char
  | [] => []
  | [l] => l
  | l :: ls => l ++ sep ++ joinWith sep ls

/-- `dropPre p s` removes the exact prefix `p` from `s` (`none` if `s` does not
start with `p`); the literal-prefix part of the embedded regular expressions. -/
def dropPre : List Char → List Char → Option (List Char)
  | [], s => some s
  | _ :: _, [] => none
  | c :: p, d :: s => if c = d then dropPre p s else none

/-- Whether `s` starts with `p` (Python `str.startswith`). -/
def startsWith (p s : List Char) : Bool := (dropPre p s).isSome

/-- Whether `s` ends with `p` (Python `str.endswith`). -/
def endsWith (p s : List Char) : Bool := (dropPre p.reverse s.reverse).isSome

/-- Index of the first occurrence of `needle` in `s` (Python `str.find`,
with `none` standing for Python's `-1`). -/
def findSub (needle : List Char) : List Char → Option Nat
  | [] => if (dropPre needle []).isSome then some 0 else none
  | c :: cs =>
    if (dropPre needle (c :: cs)).isSome then some 0
    else (findSub needle cs).map (· + 1)

/-- Length of the run of copies of `c` at the front of `s`. -/
def countLeading (c : Char) : List Char → Nat
  | [] => 0
  | x :: xs => if x = c then countLeading c xs + 1 else 0

/-! ## Inline token matchers

`_INLINE_TOKEN_RE` is the alternation
`` `[^`]+` | \*\*\*[^*]+?\*\*\* | ___[^_]+?___ | \*\*[^*]+?\*\* | __[^_]+?__ | \*[^*\n]+?\*` | _[^_\n]+?_ ``.
Each alternative is `marker^k`, a non-empty lazy run of characters that are
not the marker (nor `\n` for the single-marker forms), then `marker^k`.
Laziness makes each alternative deterministic: the run extends to the first
stop character, which must begin the closing marker. -/

/-- Split `s` at the first character satisfying `p`:
the `p`-free prefix, that character, and the remainder. -/
def splitAtFirst (p : Char → Bool) : List Char → Option (List Char × Char × List Char)
  | [] => none
  | c :: cs =>
    if p c then some ([], c, cs)
    else (splitAtFirst p cs).map fun x => (c :: x.1, x.2.1, x.2.2)

/-- Matcher for one alternative `c^k [^c]+? c^k` (with `\n` also excluded from
the run when `stopNl` is true) at the start of `s`.  Returns
(whole match, inner run, remainder of `s`). -/
def matchWrap (c : Char) (k : Nat) (stopNl : Bool) (s : List Char) :
    Option (List Char × List Char × List Char) :=
  match dropPre (List.replicate k c) s with
  | none => none
  | some r =>
    match splitAtFirst (fun ch => ch = c || (stopNl && ch = '\n')) r with
    | none => none
    | some (inner, stop, after) =>
      if inner = [] then none
      else if stop = c then
        match dropPre (List.replicate (k - 1) c) after with
        | some rest => some (List.replicate k c ++ inner ++ List.replicate k c, inner, rest)
        | none => none
      else none

def matchCode : List Char → Option (List Char × List Char × List Char) := matchWrap '`' 1 false
def matchStar3 : List Char → Option (List Char × List Char × List Char) := matchWrap '*' 3 false
def matchUnder3 : List Char → Option (List Char × List Char × List Char) := matchWrap '_' 3 false
def matchStar2 : List Char → Option (List Char × List Char × List Char) := matchWrap '*' 2 false
def matchUnder2 : List Char → Option (List Char × List Char × List Char) := matchWrap '_' 2 false
def matchStar1 : List Char → Option (List Char × List Char × List Char) := matchWrap '*' 1 true
def matchUnder1 : List Char → Option (List Char × List Char × List Char) := matchWrap '_' 1 true

/-- First alternative of `_INLINE_TOKEN_RE` that matches at the start of `s`,
in the source's alternation order. -/
def matchFirst (s : List Char) : Option (List Char × List Char × List Char) :=
  match matchCode s with
  | some r => some r
  | none =>
    match matchStar3 s with
    | some r => some r
    | none =>
      match matchUnder3 s with
      | some r => some r
      | none =>
        match matchStar2 s with
        | some r => some r
        | none =>
          match matchUnder2 s with
          | some r => some r
          | none =>
            match matchStar1 s with
            | some r => some r
            | none => matchUnder1 s

/-- `re.split` driver for `_INLINE_TOKEN_RE` (one capture group): alternating
plain chunks and matches, empty chunks included.  Fuel decreases once per
consumed character or match; `length + 1` fuel always suffices. -/
def tokenizeAuxF : Nat → List Char → List Char → List (List Char)
  | _, acc, [] => [acc]
  | 0, acc, s => [acc ++ s]
  | fuel + 1, acc, ch :: rest =>
    match matchFirst (ch :: rest) with
    | some (full, _, r) => acc :: full :: tokenizeAuxF fuel [] r
    | none => tokenizeAuxF fuel (acc ++ [ch]) rest

/-- `tokens = _INLINE_TOKEN_RE.split(text)` followed by
`tokens = [t for t in tokens if t]`. -/
def tokenizeInline (s : List Char) : List (List Char) :=
  (tokenizeAuxF (s.length + 1) [] s).filter (fun t => t ≠ [])

/-! ## `_strip_inline_md`

Seven sequential `re.sub` passes.  Each pattern is again
`marker^k ([^marker]+) marker^k`; greedy and lazy runs agree for these
patterns (the run always extends exactly to the first stop character), so the
lazy matchers above are reused.  `re.sub` scans left to right, replacing each
match by its group and continuing after it. -/

def subPassF (m : List Char → Option (List Char × List Char × List Char)) :
    Nat → List Char → List Char
  | 0, s => s
  | _ + 1, [] => []
  | fuel + 1, ch :: rest =>
    match m (ch :: rest) with
    | some (_, inner, r) => inner ++ subPassF m fuel r
    | none => ch :: subPassF m fuel rest

def subPass (m : List Char → Option (List Char × List Char × List Char))
    (s : List Char) : List Char :=
  subPassF m (s.length + 1) s

/-- `_strip_inline_md`: the seven `re.sub` passes in source order
(code, `***`, `___`, `**`, `__`, `*`, `_`). -/
def stripInlineMd (s : List Char) : List Char :=
  subPass matchUnder1 (subPass matchStar1 (subPass matchUnder2 (subPass matchStar2
    (subPass matchUnder3 (subPass matchStar3 (subPass matchCode s))))))

/-! ## `_parse_inline_formatting` -/

structure InlineRun where
  text : List Char
  bold : Bool := false
  italic : Bool := false
deriving DecidableEq

/-- Drop a single trailing `'\n'` (the position where Python's `$` may match
before the end of the string). -/
def removeTrailNl (t : List Char) : List Char :=
  match t.reverse with
  | c :: r => if c = '\n' then r.reverse else t
  | [] => t

/-- `re.match(r'^PRE(.+)SUF$', token)`: succeeds when `token` (with one
trailing newline ignored, per `$`) is `PRE ++ mid ++ SUF` with `mid` non-empty
and newline-free; returns `mid` (the captured group). -/
def reFull (pre suf t : List Char) : Option (List Char) :=
  let t' := removeTrailNl t
  match dropPre pre t' with
  | none => none
  | some m =>
    match dropPre suf.reverse m.reverse with
    | none => none
    | some midRev =>
      let mid := midRev.reverse
      if mid = [] then none
      else if mid.contains '\n' then none
      else some mid

/-- The per-token branch of `_parse_inline_formatting`: bold+italic, bold,
italic, code, then plain, each dropping runs whose cleaned text is empty. -/
def classifyToken (t : List Char) : List InlineRun :=
  match reFull (sl "***") (sl "***") t with
  | some mid =>
    let cleaned := stripInlineMd mid
    if cleaned = [] then [] else [⟨cleaned, true, true⟩]
  | none =>
  match reFull (sl "___") (sl "___") t with
  | some mid =>
    let cleaned := stripInlineMd mid
    if cleaned = [] then [] else [⟨cleaned, true, true⟩]
  | none =>
  match reFull (sl "**") (sl "**") t with
  | some mid =>
    let cleaned := stripInlineMd mid
    if cleaned = [] then [] else [⟨cleaned, true, false⟩]
  | none =>
  match reFull (sl "__") (sl "__") t with
  | some mid =>
    let cleaned := stripInlineMd mid
    if cleaned = [] then [] else [⟨cleaned, true, false⟩]
  | none =>
  match reFull (sl "*") (sl "*") t with
  | some mid =>
    let cleaned := stripInlineMd mid
    if cleaned = [] then [] else [⟨cleaned, false, true⟩]
  | none =>
  match reFull (sl "_") (sl "_") t with
  | some mid =>
    let cleaned := stripInlineMd mid
    if cleaned = [] then [] else [⟨cleaned, false, true⟩]
  | none =>
  match reFull (sl "`") (sl "`") t with
  | some mid => if mid = [] then [] else [⟨mid, false, false⟩]
  | none =>
    let cleaned := stripInlineMd t
    if cleaned = [] then [] else [⟨cleaned, false, false⟩]

/-- `_parse_inline_formatting(text)`. -/
def parseInlineFormatting (text : List Char) : List InlineRun :=
  let runs := (tokenizeInline text).flatMap classifyToken
  if runs = [] then
    let c := stripInlineMd text
    [⟨if c = [] then text else c, false, false⟩]
  else runs

/-! ## `_strip_code_blocks`

`re.sub(r'```[\s\S]*?```', '', text).strip()`: non-greedy, so an opening
fence pairs with the nearest later fence; an unpaired fence is left in place
(the scan then resumes one character later). -/

/-- Find the first occurrence of ``` in `s` and return the remainder after it. -/
def dropFence : List Char → Option (List Char)
  | '`' :: '`' :: '`' :: r => some r
  | _ :: cs => dropFence cs
  | [] => none

def stripCodeBlocksF : Nat → List Char → List Char
  | 0, s => s
  | _ + 1, [] => []
  | fuel + 1, c :: cs =>
    if c = '`' then
      match cs with
      | '`' :: '`' :: r =>
        match dropFence r with
        | some rest => stripCodeBlocksF fuel rest
        | none => c :: stripCodeBlocksF fuel cs
      | _ => c :: stripCodeBlocksF fuel cs
    else c :: stripCodeBlocksF fuel cs

def stripCodeBlocks (s : List Char) : List Char :=
  pyStrip (stripCodeBlocksF (s.length + 1) s)

/-! ## Block data model (`MdHeading`, `MdParagraph`, `MdList`, `MdImage`, `MdTable`)

The source stores ordered-list items as plain strings and unordered-list
items as `MdListItem(text, indent)`; the two list shapes are separate
constructors here. -/

structure MdListItem where
  text : List Char
  indent : Nat := 0
deriving DecidableEq

inductive MdBlock where
  | heading (level : Nat) (text : List Char)
  | para (text : List Char)
  | olist (items : List (List Char))
  | ulist (items : List MdListItem)
  | image (alt url : List Char)
  | table (headers : List (List Char)) (rows : List (List (List Char)))
deriving DecidableEq

/-! ## Line matchers of `_parse_markdown_blocks` -/

/-- `re.match(r'^(#{1,6})\s+(.+)$', trimmed)`: heading level and trimmed text.
The greedy `\s+`/`(.+)` split followed by `.strip()` on the group makes the
text `pyStrip` of everything after the whitespace run. -/
def headingMatch (s : List Char) : Option (Nat × List Char) :=
  let k := countLeading '#' s
  if 1 ≤ k ∧ k ≤ 6 then
    match s.drop k with
    | c :: _ :: _ =>
      if pyWs c then some (k, pyStrip ((s.drop k).dropWhile pyWs)) else none
    | _ => none
  else none

/-- `re.match(r'^#{1,6}\s+', cur)` (the paragraph-terminating prefix test). -/
def headingPrefixTest (s : List Char) : Bool :=
  let k := countLeading '#' s
  decide (1 ≤ k) && decide (k ≤ 6) &&
    (match s.drop k with
     | c :: _ => pyWs c
     | [] => false)

/-- The image test of the scan loop: `trimmed.startswith('![')`,
`alt_end = trimmed.find('](')`, `alt_end >= 2`, `trimmed.endswith(')')`,
and a non-empty stripped url; returns `(alt, url)`. -/
def imageMatch (t : List Char) : Option (List Char × List Char) :=
  if startsWith (sl "![") t then
    match findSub (sl "](") t with
    | some altEnd =>
      if 2 ≤ altEnd ∧ endsWith (sl ")") t then
        let alt := pyStrip ((t.take altEnd).drop 2)
        let url := pyStrip ((t.drop (altEnd + 2)).dropLast)
        if url ≠ [] then some (alt, url) else none
      else none
    | none => none
  else none

/-- One cell of the table-separator pattern: `\s*:?-+:?\s*` (at least one dash);
returns the remainder.  Greedy and backtracking scans agree because the four
character classes (whitespace, colon, dash, colon) are disjoint. -/
def sepCell (s : List Char) : Option (List Char) :=
  let s1 := s.dropWhile pyWs
  let s2 := match s1 with
    | ':' :: r => r
    | _ => s1
  let d := countLeading '-' s2
  if 1 ≤ d then
    let s3 := s2.drop d
    let s4 := match s3 with
      | ':' :: r => r
      | _ => s3
    some (s4.dropWhile pyWs)
  else none

/-- After the first cell: `(\|\s*:?-+:?\s*)+\|?$` with `k` cells seen so far
(the `+` forces at least two cells in total). -/
def sepTail : Nat → List Char → Nat → Bool
  | _, [], k => decide (2 ≤ k)
  | _, ['|'], k => decide (2 ≤ k)
  | 0, _, _ => false
  | fuel + 1, '|' :: r, k =>
    match sepCell r with
    | some r2 => sepTail fuel r2 (k + 1)
    | none => false
  | _ + 1, _ :: _, _ => false

/-- `re.match(r'^\|?\s*:?-+:?\s*(\|\s*:?-+:?\s*)+\|?$', divider)`. -/
def sepMatch (s : List Char) : Bool :=
  let s1 := match s with
    | '|' :: r => r
    | _ => s
  match sepCell s1 with
  | some r => sepTail (r.length + 1) r 1
  | none => false

/-- `_is_table_candidate`: current line's strip contains `'|'` and the next
line's strip matches the separator pattern. -/
def isTableCandidate : List (List Char) → Bool
  | l0 :: l1 :: _ => (pyStrip l0).contains '|' && sepMatch (pyStrip l1)
  | _ => false

/-- `_split_table_row`: strip, drop one enclosing pipe at each end, split on
`'|'`, strip every cell. -/
def splitTableRow (line : List Char) : List (List Char) :=
  let row := pyStrip line
  let row := match row with
    | '|' :: r => r
    | _ => row
  let row := if endsWith (sl "|") row then row.dropLast else row
  (splitOnChar '|' row).map pyStrip

/-- `re.match(r'^\d+\.\s+', lt)` together with
`re.sub(r'^\d+\.\s+', '', lt)`: the item text after the numbered prefix. -/
def orderedItemText (s : List Char) : Option (List Char) :=
  let d := s.takeWhile Char.isDigit
  if d ≠ [] then
    match s.drop d.length with
    | '.' :: r =>
      match r with
      | c :: _ => if pyWs c then some (r.dropWhile pyWs) else none
      | [] => none
    | _ => none
  else none

/-- `re.match(r'^[-*]\s+', lt)` together with
`re.sub(r'^[-*]\s+', '', lt)`: the item text after the bullet marker. -/
def unorderedItemText (s : List Char) : Option (List Char)  :=
  match s with
  | c :: r =>
    if c = '-' || c = '*' then
      match r with
      | d :: _ => if pyWs d then some (r.dropWhile pyWs) else none
      | [] => none
    else none
  | [] => none

/-- A line whose `strip()` is empty. -/
def isBlankLine (l : List Char) : Bool := pyStrip l = []

/-! ## The three inner collection loops -/

/-- Ordered-list loop: consume numbered lines; a blank line is skipped (with
every following blank) only when the next non-blank line is itself numbered,
otherwise the loop stops at the blank line without consuming it.
Fuel `length` suffices: every step consumes at least one line. -/
def collectOrderedF : Nat → List (List Char) → List (List Char) × List (List Char)
  | _, [] => ([], [])
  | 0, ls => ([], ls)
  | fuel + 1, l :: rest =>
    let lt := pyStrip l
    match orderedItemText lt with
    | some item =>
      let p := collectOrderedF fuel rest
      (item :: p.1, p.2)
    | none =>
      if lt = [] then
        let after := rest.dropWhile isBlankLine
        match after with
        | a :: _ =>
          if (orderedItemText (pyStrip a)).isSome then collectOrderedF fuel after
          else ([], l :: rest)
        | [] => ([], l :: rest)
      else ([], l :: rest)

/-- Unordered-list loop: same continuation rule; the indent of each item is
`min(leading_whitespace_of_raw_line // 2, 2)`. -/
def collectUnorderedF : Nat → List (List Char) → List MdListItem × List (List Char)
  | _, [] => ([], [])
  | 0, ls => ([], ls)
  | fuel + 1, l :: rest =>
    let lt := pyStrip l
    match unorderedItemText lt with
    | some item =>
      let leading := (l.takeWhile pyWs).length
      let p := collectUnorderedF fuel rest
      (⟨item, min (leading / 2) 2⟩ :: p.1, p.2)
    | none =>
      if lt = [] then
        let after := rest.dropWhile isBlankLine
        match after with
        | a :: _ =>
          if (unorderedItemText (pyStrip a)).isSome then collectUnorderedF fuel after
          else ([], l :: rest)
        | [] => ([], l :: rest)
      else ([], l :: rest)

/-- Paragraph accumulation: collect stripped lines until a blank, heading
prefix, `![`, `>`, table candidate, or list line. -/
def collectPara : List (List Char) → List (List Char) × List (List Char)
  | [] => ([], [])
  | l :: rest =>
    let cur := pyStrip l
    if cur = [] then ([], l :: rest)
    else if headingPrefixTest cur then ([], l :: rest)
    else if startsWith (sl "![") cur then ([], l :: rest)
    else if startsWith (sl ">") cur then ([], l :: rest)
    else if isTableCandidate (l :: rest) then ([], l :: rest)
    else if (orderedItemText cur).isSome then ([], l :: rest)
    else if (unorderedItemText cur).isSome then ([], l :: rest)
    else
      let p := collectPara rest
      (cur :: p.1, p.2)

/-- The outer scan loop of `_parse_markdown_blocks`, with explicit fuel.
`none` means the fuel ran out with lines still unconsumed — which does happen,
for ever, on inputs where `collectPara` claims no line (a `![`-line that
fails the image pattern, or a `>` line): the source then appends an empty
paragraph without advancing `i`. -/
def scanF : Nat → List (List Char) → Option (List MdBlock)
  | 0, _ => none
  | _ + 1, [] => some []
  | fuel + 1, l :: rest =>
    let trimmed := pyStrip l
    if trimmed = [] then scanF fuel rest
    else
      match headingMatch trimmed with
      | some (k, t) => (scanF fuel rest).map (MdBlock.heading k t :: ·)
      | none =>
        match imageMatch trimmed with
        | some (alt, url) => (scanF fuel rest).map (MdBlock.image alt url :: ·)
        | none =>
          if isTableCandidate (l :: rest) then
            match rest with
            | _ :: rest2 =>
              let headers := splitTableRow l
              let rows := (rest2.takeWhile fun x => (pyStrip x).contains '|').map splitTableRow
              let rest3 := rest2.dropWhile fun x => (pyStrip x).contains '|'
              (scanF fuel rest3).map (MdBlock.table headers rows :: ·)
            | [] => none
          else if (orderedItemText trimmed).isSome then
            let p := collectOrderedF (l :: rest).length (l :: rest)
            (scanF fuel p.2).map (MdBlock.olist p.1 :: ·)
          else if (unorderedItemText trimmed).isSome then
            let p := collectUnorderedF (l :: rest).length (l :: rest)
            (scanF fuel p.2).map (MdBlock.ulist p.1 :: ·)
          else
            let p := collectPara (l :: rest)
            (scanF fuel p.2).map (MdBlock.para (joinWith (sl " ") p.1) :: ·)

/-- `_parse_markdown_blocks(markdown)`.  The outer loop consumes at least one
line per iteration whenever it terminates at all, so `length + 1` fuel is
sufficient for every terminating input; `none` reports non-termination. -/
def parseMarkdownBlocks (markdown : List Char) : Option (List MdBlock) :=
  if markdown = [] then some []
  else
    let lines := splitOnChar '\n' (stripCodeBlocks markdown)
    scanF (lines.length + 1) lines

/-! ## `_strip_redundant_heading` -/

/-- `re.match(r'^##\s+(.+)$', l)` with `group(1).strip().lower()` compared to
`title.strip().lower()`.  The backtracking of greedy `\s+` against `(.+)`
never changes the stripped group, so the text is `pyStrip` of everything
after `##`'s whitespace run; the raw (unstripped) line is tested, as in the
source. -/
def h2TitleMatch (title l : List Char) : Bool :=
  match l with
  | a :: b :: c :: d :: r =>
    a = '#' && b = '#' && pyWs c &&
      decide (pyLower (pyStrip ((c :: d :: r).dropWhile pyWs)) = pyLower (pyStrip title))
  | _ => false

/-- `_strip_redundant_heading(title, content)`: skip leading blank lines; if
the first remaining line is a `## `-heading whose stripped text equals the
stripped title case-insensitively, pop it and the blank lines after it; then
re-join on newlines and strip the whole result. -/
def stripRedundantHeading (title content : List Char) : List Char :=
  let lines := splitOnChar '\n' content
  let pre := lines.takeWhile isBlankLine
  let rest := lines.dropWhile isBlankLine
  match rest with
  | [] => pyStrip (joinWith (sl "\n") lines)
  | l :: rest' =>
    if h2TitleMatch title l then
      pyStrip (joinWith (sl "\n") (pre ++ rest'.dropWhile isBlankLine))
    else pyStrip (joinWith (sl "\n") lines)

/-- The contract of `_strip_redundant_heading` (amended): after skipping
leading blank lines, a first line of the form `##`, whitespace, text whose
stripped text equals the stripped title case-insensitively is removed
together with the blank lines immediately after it; in every case — also
when nothing matches — the function returns the remaining text with leading
and trailing whitespace stripped, not verbatim. -/
def specStripRedundantHeading (title content : List Char) : List Char :=
  let ls := splitOnChar '\n' content
  match ls.dropWhile isBlankLine with
  | [] => pyStrip content
  | l :: after =>
    match dropPre (sl "##") l with
    | some (c :: tl) =>
      if pyWs c ∧ tl ≠ [] ∧
          pyLower (pyStrip ((c :: tl).dropWhile pyWs)) = pyLower (pyStrip title) then
        pyStrip (joinWith (sl "\n") (ls.takeWhile isBlankLine ++ after.dropWhile isBlankLine))
      else pyStrip content
    | _ => pyStrip content

/-! ## Notions used by the stated properties -/

/-- A string containing none of the emphasis marker characters. -/
def markerFree (s : List Char) : Bool :=
  s.all fun c => c ≠ '*' && c ≠ '_' && c ≠ '`'

/-- Concatenation of the `text` fields of a run sequence. -/
def concatTexts : List InlineRun → List Char
  | [] => []
  | r :: rs => r.text ++ concatTexts rs

/-- `marker^k ++ p ++ marker^k`. -/
def wrap (c : Char) (k : Nat) (p : List Char) : List Char :=
  List.replicate k c ++ p ++ List.replicate k c

/-- Well-formed, non-nested emphasis markup: a source text that is a
concatenation of plain chunks and single completely-marked spans. -/
inductive Seg where
  | plain (p : List Char)
  | code (p : List Char)
  | boldItalicS (p : List Char)
  | boldItalicU (p : List Char)
  | boldS (p : List Char)
  | boldU (p : List Char)
  | italS (p : List Char)
  | italU (p : List Char)
deriving DecidableEq

def Seg.render : Seg → List Char
  | .plain p => p
  | .code p => wrap '`' 1 p
  | .boldItalicS p => wrap '*' 3 p
  | .boldItalicU p => wrap '_' 3 p
  | .boldS p => wrap '*' 2 p
  | .boldU p => wrap '_' 2 p
  | .italS p => wrap '*' 1 p
  | .italU p => wrap '_' 1 p

def Seg.payload : Seg → List Char
  | .plain p => p
  | .code p => p
  | .boldItalicS p => p
  | .boldItalicU p => p
  | .boldS p => p
  | .boldU p => p
  | .italS p => p
  | .italU p => p

def Seg.isBold : Seg → Bool
  | .boldItalicS _ => true
  | .boldItalicU _ => true
  | .boldS _ => true
  | .boldU _ => true
  | _ => false

def Seg.isItal : Seg → Bool
  | .boldItalicS _ => true
  | .boldItalicU _ => true
  | .italS _ => true
  | .italU _ => true
  | _ => false

/-- Well-formedness of one segment: a non-empty marker-free payload, with no
newline inside a marked span. -/
def Seg.wfB : Seg → Bool
  | .plain p => decide (p ≠ []) && markerFree p
  | s => decide (s.payload ≠ []) && markerFree s.payload && !(s.payload.contains '\n')

/-- The rendered source text of a segment list. -/
def renderSegs : List Seg → List Char
  | [] => []
  | s :: rest => s.render ++ renderSegs rest

/-- The same text with the emphasis markers removed: the concatenation of the
payloads. -/
def plainTextSegs : List Seg → List Char
  | [] => []
  | s :: rest => s.payload ++ plainTextSegs rest

/-- The token list `re.split` produces on a rendered segment list: plain
chunks accumulate, each marked span is one match. -/
def tokensAux : List Seg → List Char → List (List Char)
  | [], acc => [acc]
  | .plain p :: rest, acc => tokensAux rest (acc ++ p)
  | m :: rest, acc => acc :: m.render :: tokensAux rest []

/-! # Theorems -/

/-! ## C7: the never-empty contract and the empty inputs -/

/-- C7: for every input, `_parse_inline_formatting` returns a non-empty run
sequence; on the empty string it returns a single run with empty text; and
`_parse_markdown_blocks` on the empty string returns the empty block
sequence. -/
theorem c7_parse_inline_never_empty :
    (∀ s : List Char, parseInlineFormatting s ≠ []) ∧
    parseInlineFormatting [] = [⟨[], false, false⟩] ∧
    parseMarkdownBlocks [] = some [] := by
  refine ⟨?_, by decide, by decide⟩
  intro s
  unfold parseInlineFormatting
  by_cases h : (tokenizeInline s).flatMap classifyToken = [] <;> simp [h]

/-! ## C4: nested emphasis inside a bold span -/

/-- C4 counterexample: on `"**bold *and* more**"` the inline parser does not
return a single bold run `"bold and more"`.  The single-asterisk alternative
matches at position 1 before the double-asterisk alternative can match at
position 0 (the lazy `[^*]+?` of `\*\*[^*]+?\*\*` cannot cross the inner
`*`), so the split is `*`, `*bold *`, `and`, `* more*`, `*`. -/
theorem c4_nested_bold_claim_false :
    parseInlineFormatting (sl "**bold *and* more**") ≠
      [⟨sl "bold and more", true, false⟩] := by decide

/-- C4 amended: `"**bold *and* more**"` yields five runs — a literal `"*"`,
an italic `"bold "`, a plain `"and"`, an italic `" more"`, and a literal
`"*"`; the outer double asterisks never form a bold run. -/
theorem c4_nested_bold_actual :
    parseInlineFormatting (sl "**bold *and* more**") =
      [⟨sl "*", false, false⟩, ⟨sl "bold ", false, true⟩, ⟨sl "and", false, false⟩,
       ⟨sl " more", false, true⟩, ⟨sl "*", false, false⟩] := by decide

/-! ## C5: idempotence of `_strip_inline_md`

Helper lemmas: every `_INLINE_TOKEN_RE` alternative and every `re.sub`
pattern begins with a marker character, so a marker-free string is a fixed
point of every pass. -/

theorem matchWrap_none_of_head (c : Char) (k : Nat) (nl : Bool) (d : Char) (s : List Char)
    (hk : 1 ≤ k) (hd : d ≠ c) : matchWrap c k nl (d :: s) = none := by
  obtain ⟨k', rfl⟩ : ∃ k', k = k' + 1 := ⟨k - 1, by omega⟩
  have hp : dropPre (List.replicate (k' + 1) c) (d :: s) = none := by
    simp [List.replicate_succ, dropPre, Ne.symm hd]
  simp [matchWrap, hp]

theorem matchFirst_none_of_head (d : Char) (s : List Char)
    (h1 : d ≠ '`') (h2 : d ≠ '*') (h3 : d ≠ '_') : matchFirst (d :: s) = none := by
  simp only [matchFirst, matchCode, matchStar3, matchUnder3, matchStar2, matchUnder2,
    matchStar1, matchUnder1,
    matchWrap_none_of_head '`' 1 false d s (by decide) h1,
    matchWrap_none_of_head '*' 3 false d s (by decide) h2,
    matchWrap_none_of_head '_' 3 false d s (by decide) h3,
    matchWrap_none_of_head '*' 2 false d s (by decide) h2,
    matchWrap_none_of_head '_' 2 false d s (by decide) h3,
    matchWrap_none_of_head '*' 1 true d s (by decide) h2,
    matchWrap_none_of_head '_' 1 true d s (by decide) h3]

theorem subPassF_markerFree (m : List Char → Option (List Char × List Char × List Char))
    (hm : ∀ (d : Char) (s : List Char), d ≠ '`' → d ≠ '*' → d ≠ '_' → m (d :: s) = none)
    (s : List Char) (hs : markerFree s = true) : ∀ fuel, subPassF m fuel s = s := by
  induction s with
  | nil => intro fuel; cases fuel <;> rfl
  | cons c cs ih =>
    intro fuel
    cases fuel with
    | zero => rfl
    | succ n =>
      simp only [markerFree, List.all_cons, Bool.and_eq_true, decide_eq_true_eq] at hs
      have hc := hs.1
      have hrec := ih (by simpa [markerFree] using hs.2) n
      simp only [subPassF, hm c cs hc.2 hc.1.1 hc.1.2, hrec]

theorem stripInlineMd_markerFree (s : List Char) (hs : markerFree s = true) :
    stripInlineMd s = s := by
  have code := subPassF_markerFree matchCode
    (fun d s h1 _ _ => matchWrap_none_of_head '`' 1 false d s (by decide) h1)
  have s3 := subPassF_markerFree matchStar3
    (fun d s _ h2 _ => matchWrap_none_of_head '*' 3 false d s (by decide) h2)
  have u3 := subPassF_markerFree matchUnder3
    (fun d s _ _ h3 => matchWrap_none_of_head '_' 3 false d s (by decide) h3)
  have s2 := subPassF_markerFree matchStar2
    (fun d s _ h2 _ => matchWrap_none_of_head '*' 2 false d s (by decide) h2)
  have u2 := subPassF_markerFree matchUnder2
    (fun d s _ _ h3 => matchWrap_none_of_head '_' 2 false d s (by decide) h3)
  have s1 := subPassF_markerFree matchStar1
    (fun d s _ h2 _ => matchWrap_none_of_head '*' 1 true d s (by decide) h2)
  have u1 := subPassF_markerFree matchUnder1
    (fun d s _ _ h3 => matchWrap_none_of_head '_' 1 true d s (by decide) h3)
  simp only [stripInlineMd, subPass, code s hs, s3 s hs, u3 s hs, s2 s hs, u2 s hs,
    s1 s hs, u1 s hs]

/-- C5 counterexample: the inline stripper is not idempotent.  On
`"_*_a_*_"` the `\*([^*\n]+)\*` pass turns the text into `"__a__"`, whose
inner `_a_` the final `_([^_\n]+)_` pass then reduces to `"_a_"`; a second
application reaches `"a"`. -/
theorem c5_strip_not_idempotent :
    stripInlineMd (stripInlineMd (sl "_*_a_*_")) ≠ stripInlineMd (sl "_*_a_*_") := by decide

/-- C5 amended: the stripper is idempotent on strings containing none of the
marker characters `*`, `_`, backtick — such strings are fixed points, so a
second application changes nothing.  (Unrestricted idempotence fails, see the
counterexample: a pass over a marker-bearing string can manufacture a new
complete pattern for a later pass of a second application.) -/
theorem c5_strip_idempotent_marker_free (x : List Char) (h : markerFree x = true) :
    stripInlineMd (stripInlineMd x) = stripInlineMd x := by
  rw [stripInlineMd_markerFree x h, stripInlineMd_markerFree x h]

/-- C5 witness: the amended idempotence at a concrete marker-free string. -/
theorem c5_strip_idempotent_witness :
    stripInlineMd (stripInlineMd (sl "plain text")) = stripInlineMd (sl "plain text") :=
  c5_strip_idempotent_marker_free (sl "plain text") (by decide)

/-! ## C1, C2, C3: the scan loop does not always terminate

When a single-line input reaches the paragraph fallback but its line starts
with `![` or `>`, `collectPara` claims no line, so the source appends an
empty paragraph without advancing `i` and the outer loop repeats the same
state for ever.  In the embedding: for such a line the scan at any fuel
`n + 1` reduces to the scan of the *same* line list at fuel `n`, so every
fuel amount ends in `none`. -/

theorem scan_stuck_single (l : List Char)
    (h1 : ¬ pyStrip l = [])
    (h2 : headingMatch (pyStrip l) = none)
    (h3 : imageMatch (pyStrip l) = none)
    (h4 : isTableCandidate [l] = false)
    (h5 : orderedItemText (pyStrip l) = none)
    (h6 : unorderedItemText (pyStrip l) = none)
    (h7 : collectPara [l] = ([], [l])) :
    ∀ fuel, scanF fuel [l] = none := by
  intro fuel
  induction fuel with
  | zero => rfl
  | succ n ih =>
    simp only [scanF, h1, h2, h3, h4, h5, h6, h7, if_false, if_neg, Option.isSome_none,
      Bool.false_eq_true, ite_false, ih, Option.map_none]
    simp [ih]

/-- C1: the spec promises that `_parse_markdown_blocks` terminates on every
input.  It does not: on the single line `![x]()` the image pattern fails
(empty url), the paragraph accumulator refuses the line, and the scan loop
never advances — the scan returns `none` (fuel exhausted) for every fuel, in
particular for the scanner's own fuel choice. -/
theorem c1_parse_blocks_nontermination :
    (∀ fuel, scanF fuel [sl "![x]()"] = none) ∧
    parseMarkdownBlocks (sl "![x]()") = none := by
  have h := scan_stuck_single (sl "![x]()") (by decide) (by decide) (by decide)
    (by decide) (by decide) (by decide) (by decide)
  exact ⟨h, h 2⟩

/-- C2: the spec says `"![diagram](not-a-valid-url"` (no closing paren)
yields one Paragraph block with the literal line text.  Instead the scan
loop never terminates on this input: the line falls through the image
pattern, terminates paragraph accumulation without being consumed, and the
loop repeats without progress — `none` at every fuel. -/
theorem c2_failed_image_line_diverges :
    (∀ fuel, scanF fuel [sl "![diagram](not-a-valid-url"] = none) ∧
    parseMarkdownBlocks (sl "![diagram](not-a-valid-url") = none := by
  have h := scan_stuck_single (sl "![diagram](not-a-valid-url") (by decide) (by decide)
    (by decide) (by decide) (by decide) (by decide) (by decide)
  exact ⟨h, h 2⟩

/-- C3: the spec says a lone `>`-prefixed line becomes its own paragraph
with the marker retained.  Instead the scan loop never terminates: the `>`
line stops paragraph accumulation, no other matcher ever claims it, and the
loop repeats the same line for ever — `none` at every fuel. -/
theorem c3_blockquote_line_diverges :
    (∀ fuel, scanF fuel [sl "> quote"] = none) ∧
    parseMarkdownBlocks (sl "> quote") = none := by
  have h := scan_stuck_single (sl "> quote") (by decide) (by decide) (by decide)
    (by decide) (by decide) (by decide) (by decide)
  exact ⟨h, h 2⟩

/-! ## C6: `_strip_redundant_heading` -/

theorem splitOnChar_ne_nil (sep : Char) (s : List Char) : splitOnChar sep s ≠ [] := by
  cases s with
  | nil => simp [splitOnChar]
  | cons c cs =>
    by_cases hc : c = sep
    · simp [splitOnChar, hc]
    · simp only [splitOnChar, hc, ite_false]
      cases splitOnChar sep cs <;> simp

theorem joinWith_splitOnChar (sep : Char) (s : List Char) :
    joinWith [sep] (splitOnChar sep s) = s := by
  induction s with
  | nil => rfl
  | cons c cs ih =>
    by_cases hc : c = sep
    · subst hc
      obtain ⟨l, ls, hls⟩ : ∃ l ls, splitOnChar c cs = l :: ls := by
        cases h : splitOnChar c cs with
        | nil => exact absurd h (splitOnChar_ne_nil c cs)
        | cons l ls => exact ⟨l, ls, rfl⟩
      rw [hls] at ih
      simp [splitOnChar, hls, joinWith, ih]
    · obtain ⟨l, ls, hls⟩ : ∃ l ls, splitOnChar sep cs = l :: ls := by
        cases h : splitOnChar sep cs with
        | nil => exact absurd h (splitOnChar_ne_nil sep cs)
        | cons l ls => exact ⟨l, ls, rfl⟩
      rw [hls] at ih
      cases ls with
      | nil => simp only [joinWith] at ih; simp [splitOnChar, hc, hls, joinWith, ih]
      | cons l2 ls2 =>
        simp only [joinWith] at ih
        simp only [splitOnChar, hc, ite_false, hls, joinWith, List.cons_append, if_neg]
        rw [List.append_assoc] at ih ⊢
        rw [ih]

/-- C6 counterexample: on any non-matching content the function is not the
identity — it strips surrounding whitespace (`'\n'.join(lines).strip()`),
so content `"x "` with title `"t"` comes back as `"x"`, not unchanged. -/
theorem c6_returns_changed_content :
    stripRedundantHeading (sl "t") (sl "x ") ≠ sl "x " := by decide

/-- C6 amended: the function behaves as claimed — a leading `## `-heading
(after blank lines) equal to the title case-insensitively is removed with the
blank lines after it — except that in every case, matching or not, the result
is additionally stripped of leading and trailing whitespace rather than
returned unchanged.  Proven as equality with the spec-side description. -/
theorem c6_strip_redundant_heading_spec (title content : List Char) :
    stripRedundantHeading title content = specStripRedundantHeading title content := by
  have hnl : sl "\n" = ['\n'] := rfl
  have hjoin : joinWith (sl "\n") (splitOnChar '\n' content) = content := by
    rw [hnl]; exact joinWith_splitOnChar '\n' content
  have hhash : sl "##" = ['#', '#'] := rfl
  unfold stripRedundantHeading specStripRedundantHeading
  cases hrest : (splitOnChar '\n' content).dropWhile isBlankLine with
  | nil => simp [hrest, hjoin]
  | cons l after =>
    simp only [hrest]
    rcases l with _ | ⟨a, _ | ⟨b, _ | ⟨c, _ | ⟨d, r⟩⟩⟩⟩
    · simp [h2TitleMatch, hhash, dropPre, hjoin]
    · have hspec : dropPre (sl "##") [a] = none := by
        by_cases ha : ('#' : Char) = a <;> simp [hhash, dropPre, ha]
      simp [h2TitleMatch, hspec, hjoin]
    · by_cases ha : ('#' : Char) = a
      · subst ha
        by_cases hb : ('#' : Char) = b
        · subst hb; simp [h2TitleMatch, hhash, dropPre, hjoin]
        · simp [h2TitleMatch, hhash, dropPre, hjoin, hb]
      · simp [h2TitleMatch, hhash, dropPre, hjoin, ha]
    · by_cases ha : ('#' : Char) = a
      · subst ha
        by_cases hb : ('#' : Char) = b
        · subst hb; simp [h2TitleMatch, hhash, dropPre, hjoin]
        · simp [h2TitleMatch, hhash, dropPre, hjoin, hb]
      · simp [h2TitleMatch, hhash, dropPre, hjoin, ha]
    · by_cases ha : ('#' : Char) = a
      · by_cases hb : ('#' : Char) = b
        · subst ha; subst hb
          by_cases hws : pyWs c
          · by_cases heq :
                pyLower (pyStrip ((c :: d :: r).dropWhile pyWs)) = pyLower (pyStrip title) <;>
              simp [h2TitleMatch, hhash, dropPre, hjoin, hws, heq]
          · simp [h2TitleMatch, hhash, dropPre, hjoin, hws]
        · subst ha
          simp [h2TitleMatch, hhash, dropPre, hjoin, hb, Ne.symm hb]
      · simp [h2TitleMatch, hhash, dropPre, hjoin, ha, Ne.symm ha]

/-! ## C8: blank-line runs inside a list -/

theorem collectUnorderedF_nil (fuel : Nat) : collectUnorderedF fuel [] = ([], []) := by
  cases fuel <;> rfl

theorem dropWhile_blank_replicate (k : Nat) (rest : List (List Char)) :
    (List.replicate k ([] : List Char) ++ rest).dropWhile isBlankLine =
      rest.dropWhile isBlankLine := by
  induction k with
  | zero => rfl
  | succ m ih =>
    simp [List.replicate_succ, List.dropWhile_cons,
      show isBlankLine ([] : List Char) = true from rfl, ih]

theorem collectU_blank_step (rest : List (List Char)) (fuel : Nat) :
    collectUnorderedF (fuel + 1) (([] : List Char) :: rest) =
      (match rest.dropWhile isBlankLine with
       | a :: _ =>
         if (unorderedItemText (pyStrip a)).isSome then
           collectUnorderedF fuel (rest.dropWhile isBlankLine)
         else ([], ([] : List Char) :: rest)
       | [] => ([], ([] : List Char) :: rest)) := rfl

theorem collect_b_after_blanks (k fuel : Nat) :
    collectUnorderedF (fuel + 2) (List.replicate (k + 1) ([] : List Char) ++ [sl "- b"]) =
      ([⟨sl "b", 0⟩], []) := by
  have h1 : List.replicate (k + 1) ([] : List Char) ++ [sl "- b"] =
      ([] : List Char) :: (List.replicate k ([] : List Char) ++ [sl "- b"]) := by
    simp [List.replicate_succ]
  have h2 : (List.replicate k ([] : List Char) ++ [sl "- b"]).dropWhile isBlankLine =
      [sl "- b"] := by
    rw [dropWhile_blank_replicate]; rfl
  rw [h1, collectU_blank_step, h2]
  have h3 : collectUnorderedF (fuel + 1) [sl "- b"] =
      (⟨sl "b", 0⟩ :: (collectUnorderedF fuel []).1, (collectUnorderedF fuel []).2) := rfl
  have h4 : (unorderedItemText (pyStrip (sl "- b"))).isSome = true := by decide
  simp [h3, h4, collectUnorderedF_nil]

theorem collect_ab (n : Nat) :
    collectUnorderedF (n + 2) (sl "- a" :: (List.replicate n ([] : List Char) ++ [sl "- b"])) =
      ([⟨sl "a", 0⟩, ⟨sl "b", 0⟩], []) := by
  have hstep : collectUnorderedF (n + 2)
        (sl "- a" :: (List.replicate n ([] : List Char) ++ [sl "- b"])) =
      (⟨sl "a", 0⟩ ::
        (collectUnorderedF (n + 1) (List.replicate n ([] : List Char) ++ [sl "- b"])).1,
       (collectUnorderedF (n + 1) (List.replicate n ([] : List Char) ++ [sl "- b"])).2) := rfl
  rw [hstep]
  cases n with
  | zero => decide
  | succ m => rw [collect_b_after_blanks m m]

theorem c8_scan (n : Nat) :
    scanF (n + 3) (sl "- a" :: (List.replicate n ([] : List Char) ++ [sl "- b"])) =
      some [MdBlock.ulist [⟨sl "a", 0⟩, ⟨sl "b", 0⟩]] := by
  have hcand : isTableCandidate
      (sl "- a" :: (List.replicate n ([] : List Char) ++ [sl "- b"])) = false := by
    cases n <;> rfl
  have hlen : (sl "- a" :: (List.replicate n ([] : List Char) ++ [sl "- b"])).length = n + 2 := by
    simp [sl]
  have hne : ¬ pyStrip (sl "- a") = [] := by decide
  have hhm : headingMatch (pyStrip (sl "- a")) = none := by decide
  have him : imageMatch (pyStrip (sl "- a")) = none := by decide
  have hoi : orderedItemText (pyStrip (sl "- a")) = none := by decide
  have hui : (unorderedItemText (pyStrip (sl "- a"))).isSome = true := by decide
  simp only [scanF, hne, hhm, him, hcand, hoi, hui, hlen, if_false, ite_false,
    Bool.false_eq_true, if_true, ite_true, Option.isSome_none, collect_ab n]
  rfl

/-- C8: blank-line runs of any length between matching bullet lines are
consumed and the list continues — for every `n ≥ 0`, the line sequence
`"- a"`, `n` blank lines, `"- b"` parses to one unordered list with items
`a` and `b`; in particular `"- a\n\n- b"` yields a single List block with
two items.  A blank line followed by foreign content terminates the list
without being consumed: `"- a\n\nSome text"` yields the one-item list then
the paragraph, and the item loop hands the blank line back unconsumed. -/
theorem c8_list_blank_run_continuation :
    (∀ n : Nat, scanF (n + 3) (sl "- a" :: (List.replicate n ([] : List Char) ++ [sl "- b"])) =
       some [MdBlock.ulist [⟨sl "a", 0⟩, ⟨sl "b", 0⟩]]) ∧
    parseMarkdownBlocks (sl "- a\n\n- b") = some [MdBlock.ulist [⟨sl "a", 0⟩, ⟨sl "b", 0⟩]] ∧
    parseMarkdownBlocks (sl "- a\n\nSome text") =
      some [MdBlock.ulist [⟨sl "a", 0⟩], MdBlock.para (sl "Some text")] ∧
    collectUnorderedF 2 [[], sl "Some text"] = ([], [[], sl "Some text"]) :=
  ⟨c8_scan, by decide, by decide, by decide⟩

/-! ## C10: seven or more hashes never make a heading -/

theorem stripCodeBlocksF_no_tick (s : List Char) (h : ∀ x ∈ s, x ≠ '`') :
    ∀ fuel, stripCodeBlocksF fuel s = s := by
  induction s with
  | nil => intro fuel; cases fuel <;> rfl
  | cons c cs ih =>
    intro fuel
    cases fuel with
    | zero => rfl
    | succ n =>
      have hc : ¬ c = '`' := h c (by simp)
      simp only [stripCodeBlocksF, hc, ite_false, if_neg]
      rw [ih (fun x hx => h x (by simp [hx])) n]

theorem splitOnChar_no_sep (sep : Char) (s : List Char) (h : ∀ x ∈ s, x ≠ sep) :
    splitOnChar sep s = [s] := by
  induction s with
  | nil => rfl
  | cons c cs ih =>
    have hc : ¬ c = sep := h c (by simp)
    simp [splitOnChar, hc, ih (fun x hx => h x (by simp [hx]))]

theorem countLeading_replicate (c d : Char) (hd : d ≠ c) (k : Nat) (t : List Char) :
    countLeading c (List.replicate k c ++ d :: t) = k := by
  induction k with
  | zero => simp [countLeading, hd]
  | succ m ih => simp [List.replicate_succ, countLeading, ih]

theorem pyStrip_eq_self (a : Char) (mid : List Char) (d : Char)
    (ha : pyWs a = false) (hd : pyWs d = false) :
    pyStrip (a :: (mid ++ [d])) = a :: (mid ++ [d]) := by
  unfold pyStrip lstrip rstrip
  rw [List.dropWhile_cons_of_neg (by simp [ha])]
  have h1 : (a :: (mid ++ [d])).reverse = d :: (mid.reverse ++ [a]) := by simp
  rw [h1, List.dropWhile_cons_of_neg (by simp [hd])]
  simp

/-- C10: a line of `k ≥ 7` hash characters, one whitespace character, then
text never produces a Heading block: `#{1,6}` cannot match, so the whole
line (hashes included) is absorbed verbatim into a Paragraph block.  `c` is
the whitespace character after the hashes and `mid ++ [d]` the text, with
no newline or backtick in the line and a non-whitespace final character. -/
theorem c10_overlong_heading_is_paragraph (k : Nat) (c d : Char) (mid : List Char)
    (hk : 7 ≤ k) (hc : pyWs c = true) (hcn : c ≠ '\n')
    (hd : pyWs d = false) (hdn : d ≠ '\n') (hdt : d ≠ '`')
    (hmid : ∀ x ∈ mid, x ≠ '\n' ∧ x ≠ '`') :
    parseMarkdownBlocks (List.replicate k '#' ++ c :: (mid ++ [d])) =
      some [MdBlock.para (List.replicate k '#' ++ c :: (mid ++ [d]))] ∧
    (∀ bs : List MdBlock,
      parseMarkdownBlocks (List.replicate k '#' ++ c :: (mid ++ [d])) = some bs →
        ∀ lvl txt, MdBlock.heading lvl txt ∉ bs) := by
  have hc' : c ≠ '`' := by intro h; rw [h] at hc; exact absurd hc (by decide)
  have hc'' : c ≠ '#' := by intro h; rw [h] at hc; exact absurd hc (by decide)
  obtain ⟨k1, rfl⟩ : ∃ k1, k = k1 + 1 := ⟨k - 1, by omega⟩
  set s := List.replicate (k1 + 1) '#' ++ c :: (mid ++ [d]) with hs
  have hnotick : ∀ x ∈ s, x ≠ '`' := by
    intro x hx
    rcases List.mem_append.1 hx with h | h
    · rw [List.eq_of_mem_replicate h]; decide
    · rcases List.mem_cons.1 h with rfl | h2
      · exact hc'
      · rcases List.mem_append.1 h2 with h3 | h3
        · exact (hmid x h3).2
        · rw [List.mem_singleton.1 h3]; exact hdt
  have hnonl : ∀ x ∈ s, x ≠ '\n' := by
    intro x hx
    rcases List.mem_append.1 hx with h | h
    · rw [List.eq_of_mem_replicate h]; decide
    · rcases List.mem_cons.1 h with rfl | h2
      · exact hcn
      · rcases List.mem_append.1 h2 with h3 | h3
        · exact (hmid x h3).1
        · rw [List.mem_singleton.1 h3]; exact hdn
  have hshape : s = '#' :: ((List.replicate k1 '#' ++ c :: mid) ++ [d]) := by
    simp [hs, List.replicate_succ, List.append_assoc]
  have hstrip : pyStrip s = s := by
    rw [hshape]; exact pyStrip_eq_self '#' _ d (by decide) hd
  have hne : ¬ s = [] := by rw [hshape]; simp
  have hcount : countLeading '#' s = k1 + 1 := countLeading_replicate '#' c hc'' (k1 + 1) _
  have hhm : headingMatch s = none := by
    unfold headingMatch
    rw [hcount, if_neg (by omega)]
  have hpt : headingPrefixTest s = false := by
    unfold headingPrefixTest
    rw [hcount]
    have h6 : decide (k1 + 1 ≤ 6) = false := decide_eq_false (by omega)
    simp only [h6, Bool.and_false, Bool.false_and]
  have him : imageMatch s = none := by rw [hshape]; rfl
  have hcand : isTableCandidate [s] = false := rfl
  have hoi : orderedItemText s = none := by rw [hshape]; rfl
  have hui : unorderedItemText s = none := by rw [hshape]; rfl
  have hsw1 : startsWith (sl "![") s = false := by rw [hshape]; rfl
  have hsw2 : startsWith (sl ">") s = false := by rw [hshape]; rfl
  have hpara : collectPara [s] = ([s], []) := by
    simp only [collectPara, hstrip, hne, hpt, hsw1, hsw2, hcand, hoi, hui,
      Option.isSome_none, Bool.false_eq_true, ite_false, if_neg, if_false]
  have hscan : scanF 2 [s] = some [MdBlock.para s] := by
    simp only [scanF, hstrip, hne, hhm, him, hcand, hoi, hui, hpara,
      Option.isSome_none, Bool.false_eq_true, ite_false, if_neg, if_false]
    simp [hne, joinWith]
  have hmain : parseMarkdownBlocks s = some [MdBlock.para s] := by
    unfold parseMarkdownBlocks
    rw [if_neg hne]
    have hscb : stripCodeBlocks s = s := by
      unfold stripCodeBlocks
      rw [stripCodeBlocksF_no_tick s hnotick _, hstrip]
    rw [hscb, splitOnChar_no_sep '\n' s hnonl]
    exact hscan
  refine ⟨hmain, ?_⟩
  intro bs hbs lvl txt
  rw [hmain] at hbs
  rw [← Option.some.inj hbs]
  simp

/-- C10 witness: the statement at the concrete line `"####### x"`
(seven hashes, a space, text `"x"`). -/
theorem c10_overlong_heading_witness :
    parseMarkdownBlocks (List.replicate 7 '#' ++ ' ' :: ([] ++ ['x'])) =
      some [MdBlock.para (List.replicate 7 '#' ++ ' ' :: ([] ++ ['x']))] ∧
    (∀ bs : List MdBlock,
      parseMarkdownBlocks (List.replicate 7 '#' ++ ' ' :: ([] ++ ['x'])) = some bs →
        ∀ lvl txt, MdBlock.heading lvl txt ∉ bs) :=
  c10_overlong_heading_is_paragraph 7 ' ' 'x' [] (by decide) (by decide) (by decide)
    (by decide) (by decide) (by decide) (by decide)

/-! ## C9: content preservation on well-formed, non-nested emphasis markup

Plan: on `renderSegs segs` the tokenizer splits exactly at the segment
boundaries (plain chunks accumulate, each marked span is one match), each
marked token classifies to one run whose text is the payload, and plain
chunks classify to themselves; concatenating the texts gives the payload
concatenation, i.e. the input with the markers removed. -/

theorem dropPre_append (p s : List Char) : dropPre p (p ++ s) = some s := by
  induction p with
  | nil => rfl
  | cons c p ih => simp [dropPre, ih]

theorem splitAtFirst_first (p : Char → Bool) (pre : List Char)
    (hpre : ∀ x ∈ pre, p x = false) (c : Char) (hc : p c = true) (rest : List Char) :
    splitAtFirst p (pre ++ c :: rest) = some (pre, c, rest) := by
  induction pre with
  | nil => simp [splitAtFirst, hc]
  | cons a t ih =>
    have ha : p a = false := hpre a (by simp)
    simp [splitAtFirst, ha, ih (fun x hx => hpre x (by simp [hx]))]

theorem markerFree_facts {p : List Char} (h : markerFree p = true) :
    ∀ x ∈ p, x ≠ '*' ∧ x ≠ '_' ∧ x ≠ '`' := by
  intro x hx
  have hx2 := List.all_eq_true.1 h x hx
  simp only [Bool.and_eq_true, decide_eq_true_eq] at hx2
  exact ⟨hx2.1.1, hx2.1.2, hx2.2⟩

theorem matchWrap_success (c : Char) (k : Nat) (hk : 1 ≤ k) (nl : Bool) (p s : List Char)
    (hp : p ≠ []) (hpc : ∀ x ∈ p, x ≠ c) (hpn : nl = true → ∀ x ∈ p, x ≠ '\n') :
    matchWrap c k nl (wrap c k p ++ s) = some (wrap c k p, p, s) := by
  obtain ⟨k1, rfl⟩ : ∃ k1, k = k1 + 1 := ⟨k - 1, by omega⟩
  have h1 : wrap c (k1 + 1) p ++ s =
      List.replicate (k1 + 1) c ++ (p ++ c :: (List.replicate k1 c ++ s)) := by
    simp [wrap, List.replicate_succ, List.append_assoc]
  have hpred : ∀ x ∈ p, (decide (x = c) || (nl && decide (x = '\n'))) = false := by
    intro x hx
    cases nl with
    | false => simp [hpc x hx]
    | true => simp [hpc x hx, hpn rfl x hx]
  have hsp : splitAtFirst (fun ch => decide (ch = c) || nl && decide (ch = '\n'))
      (p ++ c :: (List.replicate k1 c ++ s)) = some (p, c, List.replicate k1 c ++ s) :=
    splitAtFirst_first _ p hpred c (by simp) _
  have h2 : k1 + 1 - 1 = k1 := rfl
  unfold matchWrap
  rw [h1]
  simp [dropPre_append, hsp, hp, h2, wrap, List.append_assoc]

theorem matchWrap_none_of_second (c : Char) (k : Nat) (hk : 2 ≤ k) (nl : Bool)
    (d : Char) (hd : d ≠ c) (s : List Char) :
    matchWrap c k nl (c :: d :: s) = none := by
  obtain ⟨k2, rfl⟩ : ∃ k2, k = k2 + 2 := ⟨k - 2, by omega⟩
  have hp : dropPre (List.replicate (k2 + 2) c) (c :: d :: s) = none := by
    simp [List.replicate_succ, dropPre, Ne.symm hd]
  simp [matchWrap, hp]

theorem matchWrap_none_of_third (c : Char) (nl : Bool) (d : Char) (hd : d ≠ c)
    (s : List Char) : matchWrap c 3 nl (c :: c :: d :: s) = none := by
  have hp : dropPre [c, c, c] (c :: c :: d :: s) = none := by
    simp [dropPre, Ne.symm hd]
  simp [matchWrap, hp]

theorem wfB_marked {m : Seg} (hm : ∀ q, m ≠ Seg.plain q) (hwf : m.wfB = true) :
    m.payload ≠ [] ∧ markerFree m.payload = true ∧ '\n' ∉ m.payload := by
  cases m
  case plain q => exact absurd rfl (hm q)
  all_goals
    simp only [Seg.wfB, Seg.payload, Bool.and_eq_true, decide_eq_true_eq,
      Bool.not_eq_true'] at hwf ⊢
  all_goals exact ⟨hwf.1.1, hwf.1.2, by simpa using hwf.2⟩

/-- On the rendering of a marked (non-plain) well-formed segment followed by
anything, the first `_INLINE_TOKEN_RE` alternative that matches is exactly
the one for that segment, and the match is exactly the rendered segment. -/
theorem matchFirst_marked (m : Seg) (hm : ∀ q, m ≠ Seg.plain q) (hwf : m.wfB = true)
    (s : List Char) :
    matchFirst (m.render ++ s) = some (m.render, m.payload, s) := by
  obtain ⟨hp0, hfree0, hnl0⟩ := wfB_marked hm hwf
  cases m
  case plain q => exact absurd rfl (hm q)
  case code p =>
    replace hp0 : p ≠ [] := hp0
    replace hfree0 : markerFree p = true := hfree0
    have hsucc := matchWrap_success '`' 1 (by decide) false p s hp0
      (fun x hx => (markerFree_facts hfree0 x hx).2.2) (by simp)
    have e0 : matchCode (Seg.render (Seg.code p) ++ s) =
        some (Seg.render (Seg.code p), p, s) := by
      simpa [Seg.render] using hsucc
    simp [matchFirst, e0, Seg.payload]
  case boldItalicS p =>
    replace hp0 : p ≠ [] := hp0
    replace hfree0 : markerFree p = true := hfree0
    replace hnl0 : '\n' ∉ p := hnl0
    obtain ⟨p0, pt, rfl⟩ := List.exists_cons_of_ne_nil hp0
    have hsh : Seg.render (Seg.boldItalicS (p0 :: pt)) ++ s =
        '*' :: '*' :: '*' :: (p0 :: pt ++ '*' :: '*' :: '*' :: s) := by
      simp [Seg.render, wrap, List.replicate_succ]
    have e1 : matchCode (Seg.render (Seg.boldItalicS (p0 :: pt)) ++ s) = none := by
      rw [hsh]; exact matchWrap_none_of_head '`' 1 false '*' _ (by decide) (by decide)
    have e2 : matchStar3 (Seg.render (Seg.boldItalicS (p0 :: pt)) ++ s) =
        some (Seg.render (Seg.boldItalicS (p0 :: pt)), p0 :: pt, s) := by
      have := matchWrap_success '*' 3 (by decide) false (p0 :: pt) s (by simp)
        (fun x hx => (markerFree_facts hfree0 x hx).1) (by simp)
      simpa [Seg.render] using this
    simp [matchFirst, e1, e2, Seg.payload]
  case boldItalicU p =>
    replace hp0 : p ≠ [] := hp0
    replace hfree0 : markerFree p = true := hfree0
    obtain ⟨p0, pt, rfl⟩ := List.exists_cons_of_ne_nil hp0
    have hsh : Seg.render (Seg.boldItalicU (p0 :: pt)) ++ s =
        '_' :: '_' :: '_' :: (p0 :: pt ++ '_' :: '_' :: '_' :: s) := by
      simp [Seg.render, wrap, List.replicate_succ]
    have e1 : matchCode (Seg.render (Seg.boldItalicU (p0 :: pt)) ++ s) = none := by
      rw [hsh]; exact matchWrap_none_of_head '`' 1 false '_' _ (by decide) (by decide)
    have e2 : matchStar3 (Seg.render (Seg.boldItalicU (p0 :: pt)) ++ s) = none := by
      rw [hsh]; exact matchWrap_none_of_head '*' 3 false '_' _ (by decide) (by decide)
    have e3 : matchUnder3 (Seg.render (Seg.boldItalicU (p0 :: pt)) ++ s) =
        some (Seg.render (Seg.boldItalicU (p0 :: pt)), p0 :: pt, s) := by
      have := matchWrap_success '_' 3 (by decide) false (p0 :: pt) s (by simp)
        (fun x hx => (markerFree_facts hfree0 x hx).2.1) (by simp)
      simpa [Seg.render] using this
    simp [matchFirst, e1, e2, e3, Seg.payload]
  case boldS p =>
    replace hp0 : p ≠ [] := hp0
    replace hfree0 : markerFree p = true := hfree0
    obtain ⟨p0, pt, rfl⟩ := List.exists_cons_of_ne_nil hp0
    have h0 := markerFree_facts hfree0 p0 (by simp)
    have hsh : Seg.render (Seg.boldS (p0 :: pt)) ++ s =
        '*' :: '*' :: p0 :: (pt ++ '*' :: '*' :: s) := by
      simp [Seg.render, wrap, List.replicate_succ]
    have e1 : matchCode (Seg.render (Seg.boldS (p0 :: pt)) ++ s) = none := by
      rw [hsh]; exact matchWrap_none_of_head '`' 1 false '*' _ (by decide) (by decide)
    have e2 : matchStar3 (Seg.render (Seg.boldS (p0 :: pt)) ++ s) = none := by
      rw [hsh]; exact matchWrap_none_of_third '*' false p0 h0.1 _
    have e3 : matchUnder3 (Seg.render (Seg.boldS (p0 :: pt)) ++ s) = none := by
      rw [hsh]; exact matchWrap_none_of_head '_' 3 false '*' _ (by decide) (by decide)
    have e4 : matchStar2 (Seg.render (Seg.boldS (p0 :: pt)) ++ s) =
        some (Seg.render (Seg.boldS (p0 :: pt)), p0 :: pt, s) := by
      have := matchWrap_success '*' 2 (by decide) false (p0 :: pt) s (by simp)
        (fun x hx => (markerFree_facts hfree0 x hx).1) (by simp)
      simpa [Seg.render] using this
    simp [matchFirst, e1, e2, e3, e4, Seg.payload]
  case boldU p =>
    replace hp0 : p ≠ [] := hp0
    replace hfree0 : markerFree p = true := hfree0
    obtain ⟨p0, pt, rfl⟩ := List.exists_cons_of_ne_nil hp0
    have h0 := markerFree_facts hfree0 p0 (by simp)
    have hsh : Seg.render (Seg.boldU (p0 :: pt)) ++ s =
        '_' :: '_' :: p0 :: (pt ++ '_' :: '_' :: s) := by
      simp [Seg.render, wrap, List.replicate_succ]
    have e1 : matchCode (Seg.render (Seg.boldU (p0 :: pt)) ++ s) = none := by
      rw [hsh]; exact matchWrap_none_of_head '`' 1 false '_' _ (by decide) (by decide)
    have e2 : matchStar3 (Seg.render (Seg.boldU (p0 :: pt)) ++ s) = none := by
      rw [hsh]; exact matchWrap_none_of_head '*' 3 false '_' _ (by decide) (by decide)
    have e3 : matchUnder3 (Seg.render (Seg.boldU (p0 :: pt)) ++ s) = none := by
      rw [hsh]; exact matchWrap_none_of_third '_' false p0 h0.2.1 _
    have e4 : matchStar2 (Seg.render (Seg.boldU (p0 :: pt)) ++ s) = none := by
      rw [hsh]; exact matchWrap_none_of_head '*' 2 false '_' _ (by decide) (by decide)
    have e5 : matchUnder2 (Seg.render (Seg.boldU (p0 :: pt)) ++ s) =
        some (Seg.render (Seg.boldU (p0 :: pt)), p0 :: pt, s) := by
      have := matchWrap_success '_' 2 (by decide) false (p0 :: pt) s (by simp)
        (fun x hx => (markerFree_facts hfree0 x hx).2.1) (by simp)
      simpa [Seg.render] using this
    simp [matchFirst, e1, e2, e3, e4, e5, Seg.payload]
  case italS p =>
    replace hp0 : p ≠ [] := hp0
    replace hfree0 : markerFree p = true := hfree0
    replace hnl0 : '\n' ∉ p := hnl0
    obtain ⟨p0, pt, rfl⟩ := List.exists_cons_of_ne_nil hp0
    have h0 := markerFree_facts hfree0 p0 (by simp)
    have hsh : Seg.render (Seg.italS (p0 :: pt)) ++ s =
        '*' :: p0 :: (pt ++ '*' :: s) := by
      simp [Seg.render, wrap, List.replicate_succ]
    have e1 : matchCode (Seg.render (Seg.italS (p0 :: pt)) ++ s) = none := by
      rw [hsh]; exact matchWrap_none_of_head '`' 1 false '*' _ (by decide) (by decide)
    have e2 : matchStar3 (Seg.render (Seg.italS (p0 :: pt)) ++ s) = none := by
      rw [hsh]; exact matchWrap_none_of_second '*' 3 (by decide) false p0 h0.1 _
    have e3 : matchUnder3 (Seg.render (Seg.italS (p0 :: pt)) ++ s) = none := by
      rw [hsh]; exact matchWrap_none_of_head '_' 3 false '*' _ (by decide) (by decide)
    have e4 : matchStar2 (Seg.render (Seg.italS (p0 :: pt)) ++ s) = none := by
      rw [hsh]; exact matchWrap_none_of_second '*' 2 (by decide) false p0 h0.1 _
    have e5 : matchUnder2 (Seg.render (Seg.italS (p0 :: pt)) ++ s) = none := by
      rw [hsh]; exact matchWrap_none_of_head '_' 2 false '*' _ (by decide) (by decide)
    have e6 : matchStar1 (Seg.render (Seg.italS (p0 :: pt)) ++ s) =
        some (Seg.render (Seg.italS (p0 :: pt)), p0 :: pt, s) := by
      have := matchWrap_success '*' 1 (by decide) true (p0 :: pt) s (by simp)
        (fun x hx => (markerFree_facts hfree0 x hx).1)
        (fun _ x hx he => hnl0 (he ▸ hx))
      simpa [Seg.render] using this
    simp [matchFirst, e1, e2, e3, e4, e5, e6, Seg.payload]
  case italU p =>
    replace hp0 : p ≠ [] := hp0
    replace hfree0 : markerFree p = true := hfree0
    replace hnl0 : '\n' ∉ p := hnl0
    obtain ⟨p0, pt, rfl⟩ := List.exists_cons_of_ne_nil hp0
    have h0 := markerFree_facts hfree0 p0 (by simp)
    have hsh : Seg.render (Seg.italU (p0 :: pt)) ++ s =
        '_' :: p0 :: (pt ++ '_' :: s) := by
      simp [Seg.render, wrap, List.replicate_succ]
    have e1 : matchCode (Seg.render (Seg.italU (p0 :: pt)) ++ s) = none := by
      rw [hsh]; exact matchWrap_none_of_head '`' 1 false '_' _ (by decide) (by decide)
    have e2 : matchStar3 (Seg.render (Seg.italU (p0 :: pt)) ++ s) = none := by
      rw [hsh]; exact matchWrap_none_of_head '*' 3 false '_' _ (by decide) (by decide)
    have e3 : matchUnder3 (Seg.render (Seg.italU (p0 :: pt)) ++ s) = none := by
      rw [hsh]; exact matchWrap_none_of_second '_' 3 (by decide) false p0 h0.2.1 _
    have e4 : matchStar2 (Seg.render (Seg.italU (p0 :: pt)) ++ s) = none := by
      rw [hsh]; exact matchWrap_none_of_head '*' 2 false '_' _ (by decide) (by decide)
    have e5 : matchUnder2 (Seg.render (Seg.italU (p0 :: pt)) ++ s) = none := by
      rw [hsh]; exact matchWrap_none_of_second '_' 2 (by decide) false p0 h0.2.1 _
    have e6 : matchStar1 (Seg.render (Seg.italU (p0 :: pt)) ++ s) = none := by
      rw [hsh]; exact matchWrap_none_of_head '*' 1 true '_' _ (by decide) (by decide)
    have e7 : matchUnder1 (Seg.render (Seg.italU (p0 :: pt)) ++ s) =
        some (Seg.render (Seg.italU (p0 :: pt)), p0 :: pt, s) := by
      have := matchWrap_success '_' 1 (by decide) true (p0 :: pt) s (by simp)
        (fun x hx => (markerFree_facts hfree0 x hx).2.1)
        (fun _ x hx he => hnl0 (he ▸ hx))
      simpa [Seg.render] using this
    simp [matchFirst, e1, e2, e3, e4, e5, e6, e7, Seg.payload]

theorem Seg.render_ne_nil (m : Seg) (hm : ∀ q, m ≠ Seg.plain q) : m.render ≠ [] := by
  cases m
  case plain q => exact absurd rfl (hm q)
  all_goals simp [Seg.render, wrap]

theorem tokensAux_marked (m : Seg) (hm : ∀ q, m ≠ Seg.plain q) (rest : List Seg)
    (acc : List Char) :
    tokensAux (m :: rest) acc = acc :: m.render :: tokensAux rest [] := by
  cases m
  case plain q => exact absurd rfl (hm q)
  all_goals rfl

theorem tokenizeAuxF_plain (p : List Char) (hfree : markerFree p = true) :
    ∀ (fuel : Nat) (acc s : List Char),
      tokenizeAuxF (fuel + p.length) acc (p ++ s) = tokenizeAuxF fuel (acc ++ p) s := by
  induction p with
  | nil => intro fuel acc s; simp
  | cons c pt ih =>
    intro fuel acc s
    have hc := markerFree_facts hfree c (by simp)
    have hfree' : markerFree pt = true := by
      simp only [markerFree, List.all_cons, Bool.and_eq_true] at hfree
      exact hfree.2
    have harith : fuel + (c :: pt).length = (fuel + pt.length) + 1 := by
      simp [List.length_cons]; omega
    rw [harith]
    have hmf : matchFirst (c :: (pt ++ s)) = none :=
      matchFirst_none_of_head c _ hc.2.2 hc.1 hc.2.1
    show tokenizeAuxF ((fuel + pt.length) + 1) acc (c :: (pt ++ s)) = _
    simp only [tokenizeAuxF, hmf]
    rw [ih hfree' fuel (acc ++ [c]) s,
      show (acc ++ [c]) ++ pt = acc ++ c :: pt by simp]

theorem tokenizeAuxF_marked (m : Seg) (hm : ∀ q, m ≠ Seg.plain q) (hwf : m.wfB = true)
    (fuel : Nat) (acc s : List Char) :
    tokenizeAuxF (fuel + 1) acc (m.render ++ s) =
      acc :: m.render :: tokenizeAuxF fuel [] s := by
  obtain ⟨r0, rt, hr⟩ : ∃ r0 rt, m.render = r0 :: rt := by
    cases hrender : m.render with
    | nil => exact absurd hrender (Seg.render_ne_nil m hm)
    | cons a b => exact ⟨a, b, rfl⟩
  have hmf := matchFirst_marked m hm hwf s
  rw [hr] at hmf ⊢
  rw [List.cons_append]
  simp only [tokenizeAuxF]
  rw [show matchFirst (r0 :: (rt ++ s)) = some (r0 :: rt, m.payload, s) from by
    simpa [List.cons_append] using hmf]

theorem tokenizeAuxF_render (segs : List Seg) (hwf : ∀ m ∈ segs, m.wfB = true) :
    ∀ (fuel : Nat) (acc : List Char), (renderSegs segs).length + 1 ≤ fuel →
      tokenizeAuxF fuel acc (renderSegs segs) = tokensAux segs acc := by
  induction segs with
  | nil =>
    intro fuel acc _
    cases fuel <;> rfl
  | cons m rest ih =>
    intro fuel acc hfuel
    have hwfm : m.wfB = true := hwf m (by simp)
    have hwfr : ∀ x ∈ rest, x.wfB = true := fun x hx => hwf x (by simp [hx])
    by_cases hpl : ∃ q, m = Seg.plain q
    · obtain ⟨q, rfl⟩ := hpl
      have hqfree : markerFree q = true := by
        simp only [Seg.wfB, Bool.and_eq_true] at hwfm
        exact hwfm.2
      have hlen : (renderSegs (Seg.plain q :: rest)).length =
          q.length + (renderSegs rest).length := by
        simp [renderSegs, Seg.render]
      have hsplit : fuel = (fuel - q.length) + q.length := by
        rw [hlen] at hfuel; omega
      have hrw : renderSegs (Seg.plain q :: rest) = q ++ renderSegs rest := by
        simp [renderSegs, Seg.render]
      rw [hrw, hsplit, tokenizeAuxF_plain q hqfree (fuel - q.length) acc (renderSegs rest)]
      rw [ih hwfr (fuel - q.length) (acc ++ q) (by rw [hlen] at hfuel; omega)]
      rfl
    · have hm : ∀ q, m ≠ Seg.plain q := fun q h => hpl ⟨q, h⟩
      have hrne := Seg.render_ne_nil m hm
      have hrpos : 1 ≤ m.render.length := List.length_pos.2 hrne
      have hlen : (renderSegs (m :: rest)).length =
          m.render.length + (renderSegs rest).length := by
        simp [renderSegs]
      have hsplit : fuel = (fuel - 1) + 1 := by rw [hlen] at hfuel; omega
      have hrw : renderSegs (m :: rest) = m.render ++ renderSegs rest := by
        simp [renderSegs]
      rw [hrw, hsplit, tokenizeAuxF_marked m hm hwfm (fuel - 1) acc (renderSegs rest)]
      rw [ih hwfr (fuel - 1) [] (by rw [hlen] at hfuel; omega)]
      rw [tokensAux_marked m hm rest acc]

theorem removeTrailNl_concat (X : List Char) (d : Char) (hd : d ≠ '\n') :
    removeTrailNl (X ++ [d]) = X ++ [d] := by
  unfold removeTrailNl
  rw [List.reverse_append]
  simp [hd]

theorem removeTrailNl_wrap (c : Char) (k : Nat) (hk : 1 ≤ k) (hc : c ≠ '\n')
    (p : List Char) : removeTrailNl (wrap c k p) = wrap c k p := by
  obtain ⟨k1, rfl⟩ : ∃ k1, k = k1 + 1 := ⟨k - 1, by omega⟩
  have hsh : wrap c (k1 + 1) p =
      (List.replicate (k1 + 1) c ++ p ++ List.replicate k1 c) ++ [c] := by
    simp [wrap, List.replicate_succ', List.append_assoc]
  rw [hsh, removeTrailNl_concat _ c hc]

theorem reFull_wrap (c : Char) (k : Nat) (hk : 1 ≤ k) (hc : c ≠ '\n') (p : List Char)
    (hp : p ≠ []) (hnl : '\n' ∉ p) :
    reFull (List.replicate k c) (List.replicate k c) (wrap c k p) = some p := by
  have hcont : p.contains '\n' = false := by simpa using hnl
  have h2 : wrap c k p = List.replicate k c ++ (p ++ List.replicate k c) := by
    simp [wrap]
  have h3 : (p ++ List.replicate k c).reverse = List.replicate k c ++ p.reverse := by
    simp
  simp only [reFull, removeTrailNl_wrap c k hk hc p]
  rw [h2]
  simp [dropPre_append, h3, List.reverse_replicate, hp, hcont, hnl]

theorem mem_removeTrailNl {x : Char} (t : List Char) (h : x ∈ removeTrailNl t) : x ∈ t := by
  unfold removeTrailNl at h
  split at h
  · next c r heq =>
    split at h
    · next hc =>
      have h2 : x ∈ r := by simpa using h
      have h3 : x ∈ t.reverse := by rw [heq]; exact List.mem_cons_of_mem c h2
      simpa using h3
    · exact h
  · exact h

theorem reFull_none_head (c0 : Char) (pre1 suf : List Char) (d : Char) (X : List Char)
    (hd : d ≠ c0) (hnl : removeTrailNl (d :: X) = d :: X) :
    reFull (c0 :: pre1) suf (d :: X) = none := by
  unfold reFull
  rw [hnl]
  simp [dropPre, Ne.symm hd]

theorem reFull_none_second (c0 : Char) (pre2 suf : List Char) (d : Char) (X : List Char)
    (hd : d ≠ c0) (hnl : removeTrailNl (c0 :: d :: X) = c0 :: d :: X) :
    reFull (c0 :: c0 :: pre2) suf (c0 :: d :: X) = none := by
  unfold reFull
  rw [hnl]
  simp [dropPre, Ne.symm hd]

theorem reFull_none_third (c0 : Char) (pre3 suf : List Char) (d : Char) (X : List Char)
    (hd : d ≠ c0) (hnl : removeTrailNl (c0 :: c0 :: d :: X) = c0 :: c0 :: d :: X) :
    reFull (c0 :: c0 :: c0 :: pre3) suf (c0 :: c0 :: d :: X) = none := by
  unfold reFull
  rw [hnl]
  simp [dropPre, Ne.symm hd]

theorem classifyToken_plain (t : List Char) (hfree : markerFree t = true) (ht : t ≠ []) :
    classifyToken t = [⟨t, false, false⟩] := by
  have hstrip := stripInlineMd_markerFree t hfree
  have hfail : ∀ (c0 : Char) (pre1 suf : List Char),
      (c0 = '*' ∨ c0 = '_' ∨ c0 = '`') → reFull (c0 :: pre1) suf t = none := by
    intro c0 pre1 suf hc0
    cases hr : removeTrailNl t with
    | nil => simp [reFull, hr, dropPre]
    | cons d X =>
      have hd : d ≠ c0 := by
        have hdm : d ∈ t := mem_removeTrailNl t (hr ▸ List.mem_cons_self d X)
        have hfacts := markerFree_facts hfree d hdm
        rcases hc0 with rfl | rfl | rfl
        · exact hfacts.1
        · exact hfacts.2.1
        · exact hfacts.2.2
      simp [reFull, hr, dropPre, Ne.symm hd]
  have e1 : reFull (sl "***") (sl "***") t = none := hfail '*' (sl "**") _ (Or.inl rfl)
  have e2 : reFull (sl "___") (sl "___") t = none := hfail '_' (sl "__") _ (Or.inr (Or.inl rfl))
  have e3 : reFull (sl "**") (sl "**") t = none := hfail '*' (sl "*") _ (Or.inl rfl)
  have e4 : reFull (sl "__") (sl "__") t = none := hfail '_' (sl "_") _ (Or.inr (Or.inl rfl))
  have e5 : reFull (sl "*") (sl "*") t = none := hfail '*' [] _ (Or.inl rfl)
  have e6 : reFull (sl "_") (sl "_") t = none := hfail '_' [] _ (Or.inr (Or.inl rfl))
  have e7 : reFull (sl "`") (sl "`") t = none := hfail '`' [] _ (Or.inr (Or.inr rfl))
  simp [classifyToken, e1, e2, e3, e4, e5, e6, e7, hstrip, ht]

/-- Classification of a marked token: exactly one run, carrying the payload
and the segment's styling (with code rendered as a plain run). -/
theorem classifyToken_marked (m : Seg) (hm : ∀ q, m ≠ Seg.plain q) (hwf : m.wfB = true) :
    classifyToken m.render = [⟨m.payload, m.isBold, m.isItal⟩] := by
  obtain ⟨hp0, hfree0, hnl0⟩ := wfB_marked hm hwf
  cases m
  case plain q => exact absurd rfl (hm q)
  case boldItalicS p =>
    replace hp0 : p ≠ [] := hp0
    replace hfree0 : markerFree p = true := hfree0
    replace hnl0 : '\n' ∉ p := hnl0
    have hstrip := stripInlineMd_markerFree p hfree0
    have f1 : reFull (sl "***") (sl "***") (Seg.render (Seg.boldItalicS p)) = some p :=
      reFull_wrap '*' 3 (by decide) (by decide) p hp0 hnl0
    simp [classifyToken, f1, hstrip, hp0, Seg.payload, Seg.isBold, Seg.isItal]
  case boldItalicU p =>
    replace hp0 : p ≠ [] := hp0
    replace hfree0 : markerFree p = true := hfree0
    replace hnl0 : '\n' ∉ p := hnl0
    have hstrip := stripInlineMd_markerFree p hfree0
    have f1 : reFull (sl "***") (sl "***") (Seg.render (Seg.boldItalicU p)) = none :=
      reFull_none_head '*' (sl "**") _ '_' _ (by decide)
        (removeTrailNl_wrap '_' 3 (by decide) (by decide) p)
    have f2 : reFull (sl "___") (sl "___") (Seg.render (Seg.boldItalicU p)) = some p :=
      reFull_wrap '_' 3 (by decide) (by decide) p hp0 hnl0
    simp [classifyToken, f1, f2, hstrip, hp0, Seg.payload, Seg.isBold, Seg.isItal]
  case boldS p =>
    replace hp0 : p ≠ [] := hp0
    replace hfree0 : markerFree p = true := hfree0
    replace hnl0 : '\n' ∉ p := hnl0
    have hstrip := stripInlineMd_markerFree p hfree0
    obtain ⟨p0, pt, rfl⟩ := List.exists_cons_of_ne_nil hp0
    have h0 := markerFree_facts hfree0 p0 (by simp)
    have f1 : reFull (sl "***") (sl "***") (Seg.render (Seg.boldS (p0 :: pt))) = none :=
      reFull_none_third '*' [] _ p0 _ h0.1
        (removeTrailNl_wrap '*' 2 (by decide) (by decide) (p0 :: pt))
    have f2 : reFull (sl "___") (sl "___") (Seg.render (Seg.boldS (p0 :: pt))) = none :=
      reFull_none_head '_' (sl "__") _ '*' _ (by decide)
        (removeTrailNl_wrap '*' 2 (by decide) (by decide) (p0 :: pt))
    have f3 : reFull (sl "**") (sl "**") (Seg.render (Seg.boldS (p0 :: pt))) =
        some (p0 :: pt) :=
      reFull_wrap '*' 2 (by decide) (by decide) (p0 :: pt) hp0 hnl0
    simp [classifyToken, f1, f2, f3, hstrip, hp0, Seg.payload, Seg.isBold, Seg.isItal]
  case boldU p =>
    replace hp0 : p ≠ [] := hp0
    replace hfree0 : markerFree p = true := hfree0
    replace hnl0 : '\n' ∉ p := hnl0
    have hstrip := stripInlineMd_markerFree p hfree0
    obtain ⟨p0, pt, rfl⟩ := List.exists_cons_of_ne_nil hp0
    have h0 := markerFree_facts hfree0 p0 (by simp)
    have f1 : reFull (sl "***") (sl "***") (Seg.render (Seg.boldU (p0 :: pt))) = none :=
      reFull_none_head '*' (sl "**") _ '_' _ (by decide)
        (removeTrailNl_wrap '_' 2 (by decide) (by decide) (p0 :: pt))
    have f2 : reFull (sl "___") (sl "___") (Seg.render (Seg.boldU (p0 :: pt))) = none :=
      reFull_none_third '_' [] _ p0 _ h0.2.1
        (removeTrailNl_wrap '_' 2 (by decide) (by decide) (p0 :: pt))
    have f3 : reFull (sl "**") (sl "**") (Seg.render (Seg.boldU (p0 :: pt))) = none :=
      reFull_none_head '*' (sl "*") _ '_' _ (by decide)
        (removeTrailNl_wrap '_' 2 (by decide) (by decide) (p0 :: pt))
    have f4 : reFull (sl "__") (sl "__") (Seg.render (Seg.boldU (p0 :: pt))) =
        some (p0 :: pt) :=
      reFull_wrap '_' 2 (by decide) (by decide) (p0 :: pt) hp0 hnl0
    simp [classifyToken, f1, f2, f3, f4, hstrip, hp0, Seg.payload, Seg.isBold, Seg.isItal]
  case italS p =>
    replace hp0 : p ≠ [] := hp0
    replace hfree0 : markerFree p = true := hfree0
    replace hnl0 : '\n' ∉ p := hnl0
    have hstrip := stripInlineMd_markerFree p hfree0
    obtain ⟨p0, pt, rfl⟩ := List.exists_cons_of_ne_nil hp0
    have h0 := markerFree_facts hfree0 p0 (by simp)
    have f1 : reFull (sl "***") (sl "***") (Seg.render (Seg.italS (p0 :: pt))) = none :=
      reFull_none_second '*' (sl "*") _ p0 _ h0.1
        (removeTrailNl_wrap '*' 1 (by decide) (by decide) (p0 :: pt))
    have f2 : reFull (sl "___") (sl "___") (Seg.render (Seg.italS (p0 :: pt))) = none :=
      reFull_none_head '_' (sl "__") _ '*' _ (by decide)
        (removeTrailNl_wrap '*' 1 (by decide) (by decide) (p0 :: pt))
    have f3 : reFull (sl "**") (sl "**") (Seg.render (Seg.italS (p0 :: pt))) = none :=
      reFull_none_second '*' [] _ p0 _ h0.1
        (removeTrailNl_wrap '*' 1 (by decide) (by decide) (p0 :: pt))
    have f4 : reFull (sl "__") (sl "__") (Seg.render (Seg.italS (p0 :: pt))) = none :=
      reFull_none_head '_' (sl "_") _ '*' _ (by decide)
        (removeTrailNl_wrap '*' 1 (by decide) (by decide) (p0 :: pt))
    have f5 : reFull (sl "*") (sl "*") (Seg.render (Seg.italS (p0 :: pt))) =
        some (p0 :: pt) :=
      reFull_wrap '*' 1 (by decide) (by decide) (p0 :: pt) hp0 hnl0
    simp [classifyToken, f1, f2, f3, f4, f5, hstrip, hp0, Seg.payload, Seg.isBold,
      Seg.isItal]
  case italU p =>
    replace hp0 : p ≠ [] := hp0
    replace hfree0 : markerFree p = true := hfree0
    replace hnl0 : '\n' ∉ p := hnl0
    have hstrip := stripInlineMd_markerFree p hfree0
    obtain ⟨p0, pt, rfl⟩ := List.exists_cons_of_ne_nil hp0
    have h0 := markerFree_facts hfree0 p0 (by simp)
    have f1 : reFull (sl "***") (sl "***") (Seg.render (Seg.italU (p0 :: pt))) = none :=
      reFull_none_head '*' (sl "**") _ '_' _ (by decide)
        (removeTrailNl_wrap '_' 1 (by decide) (by decide) (p0 :: pt))
    have f2 : reFull (sl "___") (sl "___") (Seg.render (Seg.italU (p0 :: pt))) = none :=
      reFull_none_second '_' (sl "_") _ p0 _ h0.2.1
        (removeTrailNl_wrap '_' 1 (by decide) (by decide) (p0 :: pt))
    have f3 : reFull (sl "**") (sl "**") (Seg.render (Seg.italU (p0 :: pt))) = none :=
      reFull_none_head '*' (sl "*") _ '_' _ (by decide)
        (removeTrailNl_wrap '_' 1 (by decide) (by decide) (p0 :: pt))
    have f4 : reFull (sl "__") (sl "__") (Seg.render (Seg.italU (p0 :: pt))) = none :=
      reFull_none_second '_' [] _ p0 _ h0.2.1
        (removeTrailNl_wrap '_' 1 (by decide) (by decide) (p0 :: pt))
    have f5 : reFull (sl "*") (sl "*") (Seg.render (Seg.italU (p0 :: pt))) = none :=
      reFull_none_head '*' [] _ '_' _ (by decide)
        (removeTrailNl_wrap '_' 1 (by decide) (by decide) (p0 :: pt))
    have f6 : reFull (sl "_") (sl "_") (Seg.render (Seg.italU (p0 :: pt))) =
        some (p0 :: pt) :=
      reFull_wrap '_' 1 (by decide) (by decide) (p0 :: pt) hp0 hnl0
    simp [classifyToken, f1, f2, f3, f4, f5, f6, hstrip, hp0, Seg.payload, Seg.isBold,
      Seg.isItal]
  case code p =>
    replace hp0 : p ≠ [] := hp0
    replace hnl0 : '\n' ∉ p := hnl0
    obtain ⟨p0, pt, rfl⟩ := List.exists_cons_of_ne_nil hp0
    have f1 : reFull (sl "***") (sl "***") (Seg.render (Seg.code (p0 :: pt))) = none :=
      reFull_none_head '*' (sl "**") _ '`' _ (by decide)
        (removeTrailNl_wrap '`' 1 (by decide) (by decide) (p0 :: pt))
    have f2 : reFull (sl "___") (sl "___") (Seg.render (Seg.code (p0 :: pt))) = none :=
      reFull_none_head '_' (sl "__") _ '`' _ (by decide)
        (removeTrailNl_wrap '`' 1 (by decide) (by decide) (p0 :: pt))
    have f3 : reFull (sl "**") (sl "**") (Seg.render (Seg.code (p0 :: pt))) = none :=
      reFull_none_head '*' (sl "*") _ '`' _ (by decide)
        (removeTrailNl_wrap '`' 1 (by decide) (by decide) (p0 :: pt))
    have f4 : reFull (sl "__") (sl "__") (Seg.render (Seg.code (p0 :: pt))) = none :=
      reFull_none_head '_' (sl "_") _ '`' _ (by decide)
        (removeTrailNl_wrap '`' 1 (by decide) (by decide) (p0 :: pt))
    have f5 : reFull (sl "*") (sl "*") (Seg.render (Seg.code (p0 :: pt))) = none :=
      reFull_none_head '*' [] _ '`' _ (by decide)
        (removeTrailNl_wrap '`' 1 (by decide) (by decide) (p0 :: pt))
    have f6 : reFull (sl "_") (sl "_") (Seg.render (Seg.code (p0 :: pt))) = none :=
      reFull_none_head '_' [] _ '`' _ (by decide)
        (removeTrailNl_wrap '`' 1 (by decide) (by decide) (p0 :: pt))
    have f7 : reFull (sl "`") (sl "`") (Seg.render (Seg.code (p0 :: pt))) =
        some (p0 :: pt) :=
      reFull_wrap '`' 1 (by decide) (by decide) (p0 :: pt) hp0 hnl0
    simp [classifyToken, f1, f2, f3, f4, f5, f6, f7, hp0, Seg.payload, Seg.isBold,
      Seg.isItal]

theorem concatTexts_append (a b : List InlineRun) :
    concatTexts (a ++ b) = concatTexts a ++ concatTexts b := by
  induction a with
  | nil => rfl
  | cons r rs ih => simp [concatTexts, ih]

/-- Filtering the empty chunks out of the token list of a rendered segment
list and classifying each token yields runs whose concatenated text is the
payload concatenation, and at least one run as soon as there is a segment or
a pending non-empty chunk. -/
theorem runs_tokensAux (segs : List Seg) (hwf : ∀ m ∈ segs, m.wfB = true) :
    ∀ acc : List Char, markerFree acc = true →
      concatTexts (((tokensAux segs acc).filter (fun t => t ≠ [])).flatMap classifyToken) =
        acc ++ plainTextSegs segs ∧
      ((acc ≠ [] ∨ segs ≠ []) →
        ((tokensAux segs acc).filter (fun t => t ≠ [])).flatMap classifyToken ≠ []) := by
  induction segs with
  | nil =>
    intro acc hacc
    constructor
    · by_cases ha : acc = []
      · subst ha; simp [tokensAux, plainTextSegs, concatTexts]
      · simp [tokensAux, plainTextSegs, List.filter_cons, ha,
          classifyToken_plain acc hacc ha, concatTexts]
    · intro h
      rcases h with h | h
      · simp [tokensAux, List.filter_cons, h, classifyToken_plain acc hacc h]
      · exact absurd rfl h
  | cons m rest ih =>
    intro acc hacc
    have hwfm : m.wfB = true := hwf m (by simp)
    have hwfr : ∀ x ∈ rest, x.wfB = true := fun x hx => hwf x (by simp [hx])
    by_cases hpl : ∃ q, m = Seg.plain q
    · obtain ⟨q, rfl⟩ := hpl
      have hq : q ≠ [] ∧ markerFree q = true := by
        simp only [Seg.wfB, Bool.and_eq_true, decide_eq_true_eq] at hwfm
        exact hwfm
      have haccq : markerFree (acc ++ q) = true := by
        simp only [markerFree, List.all_append, Bool.and_eq_true]
        exact ⟨hacc, hq.2⟩
      have hrec := ih hwfr (acc ++ q) haccq
      have heq : tokensAux (Seg.plain q :: rest) acc = tokensAux rest (acc ++ q) := rfl
      rw [heq]
      constructor
      · rw [hrec.1]
        simp [plainTextSegs, Seg.payload, List.append_assoc]
      · intro _
        apply hrec.2
        left
        simp [hq.1]
    · have hm : ∀ q, m ≠ Seg.plain q := fun q h => hpl ⟨q, h⟩
      have hclass := classifyToken_marked m hm hwfm
      have hrne : ¬ m.render = [] := Seg.render_ne_nil m hm
      have hrec := ih hwfr [] rfl
      rw [tokensAux_marked m hm rest acc]
      constructor
      · by_cases ha : acc = []
        · subst ha
          simp [List.filter_cons, hrne, hclass, concatTexts_append,
            plainTextSegs, concatTexts]
          simpa using hrec.1
        · simp [List.filter_cons, ha, hrne, hclass, classifyToken_plain acc hacc ha,
            concatTexts_append, plainTextSegs, concatTexts, List.append_assoc]
          simpa using hrec.1
      · intro _
        by_cases ha : acc = []
        · subst ha
          simp [List.filter_cons, hrne, hclass]
        · simp [List.filter_cons, ha, hrne, hclass, classifyToken_plain acc hacc ha]

/-- C9: content preservation.  For every input made only of well-formed,
non-nested emphasis markup — a concatenation of marker-free plain chunks and
completely-marked spans — concatenating the `text` fields of all runs of
`_parse_inline_formatting`, ignoring the style flags, yields the input with
the emphasis marker characters removed and no other characters lost. -/
theorem c9_content_preservation (segs : List Seg) (hwf : ∀ m ∈ segs, m.wfB = true) :
    concatTexts (parseInlineFormatting (renderSegs segs)) = plainTextSegs segs := by
  cases hsegs : segs with
  | nil => decide
  | cons m rest =>
    subst hsegs
    have htok : tokenizeInline (renderSegs (m :: rest)) =
        (tokensAux (m :: rest) []).filter (fun t => t ≠ []) := by
      unfold tokenizeInline
      rw [tokenizeAuxF_render (m :: rest) hwf ((renderSegs (m :: rest)).length + 1) []
        (le_refl _)]
    have hruns := runs_tokensAux (m :: rest) hwf [] rfl
    have hne := hruns.2 (Or.inr (by simp))
    unfold parseInlineFormatting
    rw [htok]
    rw [if_neg hne]
    simpa using hruns.1

/-- C9 witness: the property at a concrete well-formed input,
`"see **bold** and _it_ plus `` `cd` ``"`. -/
theorem c9_content_preservation_witness :
    concatTexts (parseInlineFormatting (renderSegs
      [Seg.plain (sl "see "), Seg.boldS (sl "bold"), Seg.plain (sl " and "),
       Seg.italU (sl "it"), Seg.plain (sl " plus "), Seg.code (sl "cd")])) =
    plainTextSegs
      [Seg.plain (sl "see "), Seg.boldS (sl "bold"), Seg.plain (sl " and "),
       Seg.italU (sl "it"), Seg.plain (sl " plus "), Seg.code (sl "cd")] :=
  c9_content_preservation
    [Seg.plain (sl "see "), Seg.boldS (sl "bold"), Seg.plain (sl " and "),
     Seg.italU (sl "it"), Seg.plain (sl " plus "), Seg.code (sl "cd")]
    (by decide)

end Debrief
